import Mathlib

/-!
Shallow embedding of the comparison pipeline of `vs_differ.py` (the
`vs-differ` repository) together with proofs about its behaviour.

The embedding translates the Python source function-by-function:
pure helpers become Lean functions, dictionary/loop state becomes explicit
list state, fallible lookups become `Option`.  Machine integers are modelled
as `ℤ`/`ℕ` (Python integers are unbounded, so no wrap-around is involved).
The one floating-point computation (`is_change_significant`) is modelled
over the reals; at every concrete input appearing in a theorem below the
real-arithmetic comparison has a margin many orders of magnitude larger
than double-precision rounding error, so the real model agrees with the
float behaviour at those points.
-/

set_option maxRecDepth 8000
set_option exponentiation.threshold 20000

namespace VsDiffer

/-! ### TrendAnalyzer: `is_change_significant` (src/vs_differ.py lines 362-378)

The source computes
`threshold = 0.5118 * (base_value ** 0.6257)` and returns
`difference >= threshold` where `difference = abs(new_value - base_value)`.
-/

/-- The dynamic threshold `coefficient * (base_value ** exponent)` of
`is_change_significant`, with `coefficient = 0.5118` and `exponent = 0.6257`,
modelled over the reals. -/
noncomputable def significance_threshold (base_value : ℝ) : ℝ :=
  0.5118 * base_value ^ (0.6257 : ℝ)

/-- `is_change_significant(base_value, new_value)` first component:
the absolute difference is at least the dynamic threshold. -/
def is_change_significant (base_value new_value : ℝ) : Prop :=
  |new_value - base_value| ≥ significance_threshold base_value

/-- Executable counterpart of `is_change_significant` on integer counts.
Because `x ↦ x ^ 10000` is strictly monotone on nonnegative reals and
`0.5118 = 5118/10000`, `0.6257 = 6257/10000`, the real comparison
`|new - base| ≥ 0.5118 * base ^ 0.6257` (for `base ≥ 0`) is equivalent to the
natural-number comparison below (proved in `is_change_significant_b_iff`). -/
def is_change_significant_b (base_value new_value : ℤ) : Bool :=
  decide (5118 ^ 10000 * base_value.toNat ^ 6257
    ≤ (10000 * (new_value - base_value).natAbs) ^ 10000)

lemma rpow_pow_eq (b : ℕ) :
    ((b : ℝ) ^ (0.6257 : ℝ)) ^ (10000 : ℕ) = (b : ℝ) ^ (6257 : ℕ) := by
  rw [← Real.rpow_natCast ((b : ℝ) ^ (0.6257 : ℝ)) 10000,
    ← Real.rpow_mul (Nat.cast_nonneg b),
    show ((0.6257 : ℝ) * ((10000 : ℕ) : ℝ)) = ((6257 : ℕ) : ℝ) by norm_num,
    Real.rpow_natCast]

lemma significance_threshold_le_cast_iff (b q : ℕ) :
    significance_threshold (b : ℝ) ≤ (q : ℝ) ↔
      5118 ^ 10000 * b ^ 6257 ≤ (10000 * q) ^ 10000 := by
  have hT : (0 : ℝ) ≤ (b : ℝ) ^ (0.6257 : ℝ) :=
    Real.rpow_nonneg (Nat.cast_nonneg b) _
  have h1 : significance_threshold (b : ℝ) ≤ (q : ℝ) ↔
      (5118 : ℝ) * (b : ℝ) ^ (0.6257 : ℝ) ≤ ((10000 * q : ℕ) : ℝ) := by
    unfold significance_threshold
    rw [show (0.5118 : ℝ) = 5118 / 10000 by norm_num, div_mul_eq_mul_div,
      div_le_iff₀ (by norm_num : (0 : ℝ) < 10000)]
    push_cast
    constructor <;> intro h <;> linarith
  have h2 := pow_le_pow_iff_left₀
    (a := (5118 : ℝ) * (b : ℝ) ^ (0.6257 : ℝ)) (b := ((10000 * q : ℕ) : ℝ))
    (n := 10000) (by positivity) (by positivity) (by norm_num)
  rw [h1, ← h2, mul_pow, rpow_pow_eq]
  constructor <;> intro h
  · exact_mod_cast h
  · exact_mod_cast h

lemma le_significance_threshold_cast_iff (b q : ℕ) :
    (q : ℝ) ≤ significance_threshold (b : ℝ) ↔
      (10000 * q) ^ 10000 ≤ 5118 ^ 10000 * b ^ 6257 := by
  have hT : (0 : ℝ) ≤ (b : ℝ) ^ (0.6257 : ℝ) :=
    Real.rpow_nonneg (Nat.cast_nonneg b) _
  have h1 : (q : ℝ) ≤ significance_threshold (b : ℝ) ↔
      ((10000 * q : ℕ) : ℝ) ≤ (5118 : ℝ) * (b : ℝ) ^ (0.6257 : ℝ) := by
    unfold significance_threshold
    rw [show (0.5118 : ℝ) = 5118 / 10000 by norm_num, div_mul_eq_mul_div,
      le_div_iff₀ (by norm_num : (0 : ℝ) < 10000)]
    push_cast
    constructor <;> intro h <;> linarith
  have h2 := pow_le_pow_iff_left₀
    (a := ((10000 * q : ℕ) : ℝ)) (b := (5118 : ℝ) * (b : ℝ) ^ (0.6257 : ℝ))
    (n := 10000) (by positivity) (by positivity) (by norm_num)
  rw [h1, ← h2, mul_pow, rpow_pow_eq]
  constructor <;> intro h
  · exact_mod_cast h
  · exact_mod_cast h

/-- Correctness of the executable significance test against the real-valued
definition, on the faithful domain `base_value ≥ 0`. -/
theorem is_change_significant_b_iff (b n : ℤ) (hb : 0 ≤ b) :
    is_change_significant_b b n = true ↔
      is_change_significant (b : ℝ) (n : ℝ) := by
  unfold is_change_significant_b is_change_significant
  rw [decide_eq_true_iff]
  have habs : |(n : ℝ) - (b : ℝ)| = (((n - b).natAbs : ℕ) : ℝ) := by
    rw [Int.cast_natAbs, Int.cast_abs]
    push_cast
    ring_nf
  have hcast : ((b.toNat : ℕ) : ℝ) = (b : ℝ) := by
    exact_mod_cast Int.toNat_of_nonneg hb
  rw [ge_iff_le, habs, ← hcast, significance_threshold_le_cast_iff]

/-- C4: `is_change_significant` computes the threshold as
`0.5118 * oldCount ^ 0.6257` and reports the change significant exactly when
`|newCount - oldCount|` is at least that threshold; on natural-number counts
this is decided exactly by the executable test `is_change_significant_b`. -/
theorem claim_C4_threshold_model :
    (∀ base_value new_value : ℝ, is_change_significant base_value new_value ↔
        |new_value - base_value| ≥ 0.5118 * base_value ^ (0.6257 : ℝ)) ∧
    (∀ oldCount newCount : ℕ,
        is_change_significant_b (oldCount : ℤ) (newCount : ℤ) = true ↔
        is_change_significant (oldCount : ℝ) (newCount : ℝ)) := by
  constructor
  · intro b n
    exact Iff.rfl
  · intro a b
    have h := is_change_significant_b_iff (a : ℤ) (b : ℤ) (Int.natCast_nonneg a)
    rw [h]
    push_cast
    exact Iff.rfl

/-- C3: at base 500, the threshold `0.5118 * 500 ^ 0.6257` lies strictly
between 24 and 25, so a drop of exactly 25 (new value 475) is significant
while a drop of 24 (new value 476) is not. -/
theorem claim_C3_significance_boundary :
    is_change_significant 500 475 ∧ ¬ is_change_significant 500 476 ∧
    24 < significance_threshold 500 ∧ significance_threshold 500 < 25 := by
  refine ⟨?_, ?_, ?_, ?_⟩
  · have h := (is_change_significant_b_iff 500 475 (by norm_num)).mp (by decide)
    simpa using h
  · intro hsig
    have hb : is_change_significant_b 500 476 = true :=
      (is_change_significant_b_iff 500 476 (by norm_num)).mpr (by simpa using hsig)
    exact absurd hb (by decide)
  · rw [lt_iff_not_le]
    intro hle
    have h := (significance_threshold_le_cast_iff 500 24).mp (by exact_mod_cast hle)
    exact absurd h (by decide)
  · rw [lt_iff_not_le]
    intro hle
    have h := (le_significance_threshold_cast_iff 500 25).mp (by exact_mod_cast hle)
    exact absurd h (by decide)

/-- C10: at base value 0 the dynamic threshold is `0.5118 * 0 ^ 0.6257 = 0`,
so every new value (including 0, i.e. no change at all) is reported as a
significant change: the size-scaled model degenerates at zero-count
baselines. -/
theorem claim_C10_zero_base_degenerates :
    significance_threshold 0 = 0 ∧
    (∀ new_value : ℝ, is_change_significant 0 new_value) ∧
    is_change_significant 0 0 := by
  have h0 : significance_threshold 0 = 0 := by
    unfold significance_threshold
    rw [Real.zero_rpow (by norm_num), mul_zero]
  have hall : ∀ new_value : ℝ, is_change_significant 0 new_value := by
    intro n
    unfold is_change_significant
    rw [h0, ge_iff_le]
    exact abs_nonneg _
  exact ⟨h0, hall, hall 0⟩

/-! ### VersionPlanner: `month_end_version` / `compute_versions`
(src/vs_differ.py lines 179-198)

`month_end_version(d)` renders `f"{d.year:04d}{d.month:02d}{last_day:02d}"`
where `last_day = calendar.monthrange(d.year, d.month)[1]`.
`compute_versions(count, today)` returns `[]` for `count <= 0` and otherwise
emits `count` month-end ids starting from the first day of *today's* month,
stepping the month back by one each iteration (December wraps to the
previous year). -/

/-- Proleptic-Gregorian leap-year rule, as used by `calendar.monthrange`. -/
def isLeapYear (year : ℕ) : Bool :=
  (year % 4 == 0 && year % 100 != 0) || year % 400 == 0

/-- `calendar.monthrange(year, month)[1]`: the number of days in the month. -/
def monthrange_days (year month : ℕ) : ℕ :=
  if month = 2 then (if isLeapYear year then 29 else 28)
  else if month = 4 ∨ month = 6 ∨ month = 9 ∨ month = 11 then 30
  else 31

/-- `f"{n:02d}"` for `n < 100`. -/
def pad2 (n : ℕ) : String := if n < 10 then "0" ++ toString n else toString n

/-- `f"{n:04d}"` for `n < 10000`. -/
def pad4 (n : ℕ) : String :=
  if n < 10 then "000" ++ toString n
  else if n < 100 then "00" ++ toString n
  else if n < 1000 then "0" ++ toString n
  else toString n

/-- A `datetime.date`; only `year` and `month` are read by `compute_versions`. -/
structure Date where
  year : ℕ
  month : ℕ
  day : ℕ
deriving DecidableEq

/-- `month_end_version` (lines 179-181). -/
def month_end_version (date_value : Date) : String :=
  pad4 date_value.year ++ pad2 date_value.month ++
    pad2 (monthrange_days date_value.year date_value.month)

/-- The `for _ in range(count)` loop of `compute_versions` (lines 191-197):
append the month-end id for `(year, month)`, then step back one month,
wrapping `month == 0` to December of the previous year. -/
def compute_versions_loop (year month : ℕ) : ℕ → List String
  | 0 => []
  | n + 1 =>
      month_end_version ⟨year, month, 1⟩ ::
        (if month - 1 = 0 then compute_versions_loop (year - 1) 12 n
         else compute_versions_loop year (month - 1) n)

/-- `compute_versions` (lines 184-198). -/
def compute_versions (count : ℤ) (today : Date) : List String :=
  if count ≤ 0 then []
  else compute_versions_loop today.year today.month count.toNat

/-- C5 counterexample: `compute_versions(3, today=2024-03-15)` does **not**
return `["20240229", "20240131", "20231231"]` — the loop starts at the
*current* month (March 2024), so the first emitted id is `"20240331"`. -/
theorem claim_C5_counterexample :
    compute_versions 3 ⟨2024, 3, 15⟩ ≠ ["20240229", "20240131", "20231231"] := by
  decide

/-- C5 (amended): `compute_versions(3, today=2024-03-15)` returns exactly
`["20240331", "20240229", "20240131"]`, newest first — the last calendar day
of each month starting with today's own month, with the leap-year February
handled; the December→previous-year step-back shows up one reference month
earlier, e.g. `compute_versions(3, today=2024-01-15)` returns
`["20240131", "20231231", "20231130"]`. -/
theorem claim_C5_compute_versions :
    compute_versions 3 ⟨2024, 3, 15⟩ = ["20240331", "20240229", "20240131"] ∧
    compute_versions 3 ⟨2024, 1, 15⟩ = ["20240131", "20231231", "20231130"] := by
  constructor <;> rfl

/-! ### TrendAnalyzer: `get_trending_status` (src/vs_differ.py lines 467-504)

The source initialises `trending[version] = ""` for every column, then for
each `i in range(len(version_columns) - 1)` reads the cells at
`version_columns[i]` (treated as the newer release) and
`version_columns[i+1]` (the next older one); it skips the pair when either
cell is missing/empty or fails `int(...)` conversion, and sets
`trending[version_columns[i]] = "trending-down"` when the newer value is
strictly below the older one and `is_change_significant(next_int,
current_int)` reports the drop significant. -/

/-- A row's release cells: `none` models a missing key, an empty-string cell
or a value on which `int(...)` raises — exactly the cases the source skips
via its guard and `except` clause; `some n` models a cell whose value
converts to the integer `n`. -/
abbrev RowCells := String → Option ℤ

/-- The loop-body test for index `i`: both cells convert, the newer value is
strictly below the older one, and the drop is significant. -/
def pair_flag (row : RowCells) (version_columns : List String) (i : ℕ) : Bool :=
  match row (version_columns.getD i ""), row (version_columns.getD (i + 1) "") with
  | some current_int, some next_int =>
      decide (current_int < next_int) && is_change_significant_b next_int current_int
  | _, _ => false

/-- One iteration of the loop: conditionally set the newer column's cell to
`"trending-down"`. -/
def trending_step (row : RowCells) (version_columns : List String)
    (trending : String → String) (i : ℕ) : String → String :=
  if pair_flag row version_columns i then
    fun v => if v = version_columns.getD i "" then "trending-down" else trending v
  else trending

/-- `get_trending_status` (lines 467-504): all cells start as `""`, then the
loop over `range(len(version_columns) - 1)` runs `trending_step`. -/
def get_trending_status (row : RowCells) (version_columns : List String) :
    String → String :=
  (List.range (version_columns.length - 1)).foldl
    (trending_step row version_columns) (fun _ => "")

lemma foldl_trending_step_eq (row : RowCells) (cols : List String)
    (idxs : List ℕ) (init : String → String) (v : String) :
    (idxs.foldl (trending_step row cols) init) v =
      if ∃ i ∈ idxs, pair_flag row cols i = true ∧ cols.getD i "" = v
      then "trending-down" else init v := by
  induction idxs generalizing init with
  | nil => simp
  | cons i rest ih =>
      rw [List.foldl_cons, ih (trending_step row cols init i)]
      by_cases hrest : ∃ j ∈ rest, pair_flag row cols j = true ∧ cols.getD j "" = v
      · rw [if_pos hrest, if_pos ?_]
        obtain ⟨j, hj, h⟩ := hrest
        exact ⟨j, List.mem_cons_of_mem _ hj, h⟩
      · rw [if_neg hrest]
        unfold trending_step
        by_cases hflag : pair_flag row cols i = true
        · rw [if_pos hflag]
          by_cases hv : v = cols.getD i ""
          · rw [if_pos hv, if_pos ⟨i, List.mem_cons_self i rest, hflag, hv.symm⟩]
          · rw [if_neg hv, if_neg ?_]
            rintro ⟨j, hj, hf, he⟩
            rcases List.mem_cons.mp hj with rfl | hj'
            · exact hv he.symm
            · exact hrest ⟨j, hj', hf, he⟩
        · rw [if_neg hflag, if_neg ?_]
          rintro ⟨j, hj, hf, he⟩
          rcases List.mem_cons.mp hj with rfl | hj'
          · exact hflag hf
          · exact hrest ⟨j, hj', hf, he⟩

lemma get_trending_status_flagged_iff (row : RowCells) (cols : List String)
    (v : String) :
    get_trending_status row cols v = "trending-down" ↔
      ∃ i, i + 1 < cols.length ∧ pair_flag row cols i = true ∧
        cols.getD i "" = v := by
  unfold get_trending_status
  rw [foldl_trending_step_eq]
  by_cases h : ∃ i ∈ List.range (cols.length - 1),
      pair_flag row cols i = true ∧ cols.getD i "" = v
  · rw [if_pos h]
    obtain ⟨i, hi, hf⟩ := h
    have hi' : i + 1 < cols.length := by
      have := List.mem_range.mp hi
      omega
    simp only [true_iff]
    exact ⟨i, hi', hf⟩
  · rw [if_neg h]
    constructor
    · intro habs
      exact absurd habs (by decide)
    · rintro ⟨i, hi, hf, he⟩
      exact absurd ⟨i, List.mem_range.mpr (by omega), hf, he⟩ h

lemma get_trending_status_unflagged (row : RowCells) (cols : List String)
    (v : String)
    (h : ¬ ∃ i, i + 1 < cols.length ∧ pair_flag row cols i = true ∧
        cols.getD i "" = v) :
    get_trending_status row cols v = "" := by
  unfold get_trending_status
  rw [foldl_trending_step_eq, if_neg ?_]
  rintro ⟨i, hi, hf, he⟩
  have := List.mem_range.mp hi
  exact h ⟨i, by omega, hf, he⟩

/-- A row whose cells hold natural-number counts (the pipeline writes
expansion counts, which are nonnegative), viewed as integer cells. -/
def natCells (row : String → Option ℕ) : RowCells :=
  fun s => (row s).map (fun n => (n : ℤ))

lemma pair_flag_natCells_iff (row : String → Option ℕ) (cols : List String)
    (i : ℕ) :
    pair_flag (natCells row) cols i = true ↔
      ∃ newer older : ℕ, row (cols.getD i "") = some newer ∧
        row (cols.getD (i + 1) "") = some older ∧ newer < older ∧
        is_change_significant (older : ℝ) (newer : ℝ) := by
  cases hc : row (cols.getD i "") with
  | none =>
      have e1 : natCells row (cols.getD i "") = none := by
        unfold natCells
        rw [hc]
        rfl
      unfold pair_flag
      rw [e1]
      simp
  | some c =>
      have e1 : natCells row (cols.getD i "") = some (c : ℤ) := by
        unfold natCells
        rw [hc]
        rfl
      cases hn : row (cols.getD (i + 1) "") with
      | none =>
          have e2 : natCells row (cols.getD (i + 1) "") = none := by
            unfold natCells
            rw [hn]
            rfl
          unfold pair_flag
          rw [e1, e2]
          simp
      | some n =>
          have e2 : natCells row (cols.getD (i + 1) "") = some (n : ℤ) := by
            unfold natCells
            rw [hn]
            rfl
          unfold pair_flag
          rw [e1, e2]
          simp only [Bool.and_eq_true, decide_eq_true_iff]
          rw [is_change_significant_b_iff (n : ℤ) (c : ℤ) (Int.natCast_nonneg n)]
          constructor
          · rintro ⟨hlt, hsig⟩
            exact ⟨c, n, rfl, rfl, by exact_mod_cast hlt,
              by push_cast at hsig ⊢; exact hsig⟩
          · rintro ⟨c', n', hc', hn', hlt, hsig⟩
            obtain rfl : c = c' := by injection hc'
            obtain rfl : n = n' := by injection hn'
            exact ⟨by exact_mod_cast hlt, by push_cast; exact hsig⟩

/-- C2: over natural-number counts, `get_trending_status` flags a release
cell `v` exactly when some adjacent pair (index `i` = newer, `i+1` = older)
has both cells present, the newer count strictly below the older one, and
the drop significant per the threshold model with the older count as base;
pairs with a missing cell are skipped, and (the list of release columns
being duplicate-free) the oldest release in the list is never flagged. -/
theorem claim_C2_trending_flag_iff (row : String → Option ℕ)
    (version_columns : List String) (hnodup : version_columns.Nodup)
    (v : String) :
    (get_trending_status (natCells row) version_columns v = "trending-down" ↔
      ∃ i, i + 1 < version_columns.length ∧ version_columns.getD i "" = v ∧
        ∃ newer older : ℕ,
          row (version_columns.getD i "") = some newer ∧
          row (version_columns.getD (i + 1) "") = some older ∧
          newer < older ∧ is_change_significant (older : ℝ) (newer : ℝ)) ∧
    (version_columns.getLast? = some v →
      get_trending_status (natCells row) version_columns v = "") := by
  constructor
  · rw [get_trending_status_flagged_iff]
    constructor
    · rintro ⟨i, hi, hf, he⟩
      exact ⟨i, hi, he, (pair_flag_natCells_iff row version_columns i).mp hf⟩
    · rintro ⟨i, hi, he, hrest⟩
      exact ⟨i, hi, (pair_flag_natCells_iff row version_columns i).mpr hrest, he⟩
  · intro hlast
    apply get_trending_status_unflagged
    rintro ⟨i, hi, _, he⟩
    rw [List.getLast?_eq_getElem?, List.getElem?_eq_some_iff] at hlast
    obtain ⟨hlen, hv⟩ := hlast
    have hie : version_columns.getD i "" = version_columns[i] :=
      List.getD_eq_getElem version_columns "" (by omega)
    have : version_columns[i] = version_columns[version_columns.length - 1] := by
      rw [← hie, he, ← hv]
    rw [hnodup.getElem_inj_iff] at this
    omega

/-- Concrete row used to witness `claim_C2_trending_flag_iff`: the newest
release 20250630 holds 353 codes, the older 20250531 holds 508. -/
def c2_row : String → Option ℕ := fun s =>
  if s = "20250630" then some 353 else if s = "20250531" then some 508 else none

/-- Witness for C2 at a concrete row and a concrete duplicate-free,
newest-first column list. -/
theorem claim_C2_trending_flag_iff_witness :
    (get_trending_status (natCells c2_row) ["20250630", "20250531"]
        "20250630" = "trending-down" ↔
      ∃ i, i + 1 < (["20250630", "20250531"] : List String).length ∧
        (["20250630", "20250531"] : List String).getD i "" = "20250630" ∧
        ∃ newer older : ℕ,
          c2_row ((["20250630", "20250531"] : List String).getD i "")
            = some newer ∧
          c2_row ((["20250630", "20250531"] : List String).getD (i + 1) "")
            = some older ∧
          newer < older ∧ is_change_significant (older : ℝ) (newer : ℝ)) ∧
    ((["20250630", "20250531"] : List String).getLast? = some "20250630" →
      get_trending_status (natCells c2_row) ["20250630", "20250531"]
        "20250630" = "") :=
  claim_C2_trending_flag_iff c2_row ["20250630", "20250531"] (by decide)
    "20250630"

/-- The row of C1's example: release 20250531 holds 508 codes, release
20250630 holds 353. -/
def c1_row : RowCells := fun s =>
  if s = "20250531" then some 508 else if s = "20250630" then some 353 else none

/-- C1 counterexample: with the release columns in the claimed list order
`["20250531", "20250630"]`, `get_trending_status` does **not** flag
`"20250531"`: the loop treats index 0 as the newer release, and its value
508 is not below 353, so the comparison `current_int < next_int` fails. -/
theorem claim_C1_counterexample :
    ¬ (get_trending_status c1_row ["20250531", "20250630"] "20250531"
        = "trending-down") := by
  decide

/-- C1 (amended): with list order `["20250531", "20250630"]` no release is
flagged at all; when the columns are listed newest-first —
`["20250630", "20250531"]`, since 20250630 is the newer release — the
significant drop 508 → 353 flags `"20250630"`, the newer of the two compared
releases, and leaves `"20250531"` unflagged. -/
theorem claim_C1_amended :
    get_trending_status c1_row ["20250531", "20250630"] "20250531" = "" ∧
    get_trending_status c1_row ["20250531", "20250630"] "20250630" = "" ∧
    get_trending_status c1_row ["20250630", "20250531"] "20250630"
      = "trending-down" ∧
    get_trending_status c1_row ["20250630", "20250531"] "20250531" = "" :=
  ⟨by decide, by decide, by decide, by decide⟩

/-! ### Constants and small helpers (src/vs_differ.py lines 22-31, 47-54,
154-176)

Strings model Python strings; an absent-or-`None` string field is modelled
as `""` wherever the source only ever tests it for truthiness (`""` and
`None` are both falsy in Python). -/

/-- Python's `a or b` on strings (`""` is falsy). -/
def pyOr (a b : String) : String := if a = "" then b else a

/-- Python's `s.startswith(pre)`. -/
def pyStartsWith (s pre : String) : Bool := pre.data.isPrefixOf s.data

/-- Python's `needle in haystack` substring test. -/
def containsSub (haystack needle : String) : Bool :=
  (List.range (haystack.data.length + 1)).any fun i =>
    needle.data.isPrefixOf (haystack.data.drop i)

/-- Python's `str.strip()` (ASCII whitespace; the pipeline only ever strips
spaces around URLs and digit strings). -/
def pyStrip (s : String) : String :=
  ⟨((s.data.dropWhile Char.isWhitespace).reverse.dropWhile
      Char.isWhitespace).reverse⟩

/-- Python's `str.isdigit` (ASCII digits): nonempty and all digits. -/
def isDigitString (s : String) : Bool :=
  !(s.data.isEmpty) && s.data.all Char.isDigit

/-- `int(s)` on a digit-only string. -/
def digitsToNat (s : String) : ℕ :=
  s.data.foldl (fun acc c => 10 * acc + (c.toNat - 48)) 0

/-- `NCTS_PREFIXES` (lines 22-28). -/
def NCTS_PREFIXES : List String :=
  [ "http://healthterminologies.gov.au",
    "https://healthterminologies.gov.au",
    "https://ranzcr.com",
    "https://www.rcpa.edu.au",
    "http://www.abs.gov.au" ]

/-- `SNOMED_AU_SYSTEM` (line 30). -/
def SNOMED_AU_SYSTEM : String := "http://snomed.info/sct/32506021000036107"

/-- `SNOMED_BASE_SYSTEM` (line 31). -/
def SNOMED_BASE_SYSTEM : String := "http://snomed.info/sct"

/-- `is_ncts_valueset` (lines 154-155). -/
def is_ncts_valueset (url : String) : Bool :=
  NCTS_PREFIXES.any fun p => pyStartsWith url p

/-- The JSON shapes the code distinguishes when reading a scalar such as
`expansion.total`: an integer, a string, or anything else (including an
absent field, i.e. Python `None`). -/
inductive JsonScalar
  | int (n : ℤ)
  | str (s : String)
  | other
deriving DecidableEq

/-- `parse_int(value, default)` (lines 47-54): accept an `int` as-is, a
string that is digit-only after stripping, and fall back to `default`
for every other shape. -/
def parse_int (value : JsonScalar) (default : ℤ) : ℤ :=
  match value with
  | .int n => n
  | .str s =>
      let stripped := pyStrip s
      if isDigitString stripped then (digitsToNat stripped : ℤ) else default
  | .other => default

/-- A `compose.include` entry of a ValueSet document: `{system, version}`. -/
structure ComposeInclude where
  system : Option String
  version : Option String
deriving DecidableEq

/-- The parts of a ValueSet document the pipeline reads: `name` and `title`
(`""` models an absent or empty field) and `compose.include`. -/
structure ValueSetDef where
  name : String
  title : String
  compose_include : List ComposeInclude
deriving DecidableEq

/-- `has_snomed_au_content` (lines 158-176): some include entry either has a
`system` starting with the AU edition URI, or has `system` equal to the base
SNOMED URI and a `version` string containing the AU edition URI. -/
def has_snomed_au_content (valueset : ValueSetDef) : Bool :=
  valueset.compose_include.any fun inc =>
    match inc.system with
    | some system =>
        if pyStartsWith system SNOMED_AU_SYSTEM then true
        else
          match inc.version with
          | some version =>
              system = SNOMED_BASE_SYSTEM && containsSub version SNOMED_AU_SYSTEM
          | none => false
    | none => false

/-! ### ExpansionClient: `expand_valueset_count` (src/vs_differ.py
lines 227-294)

Transport failures, non-200 statuses and JSON-decoding failures
(lines 239-255) all return `(None, None)` before any payload logic runs; the
embedding below models the processing of an already-parsed 200-response
payload (lines 257-294). -/

/-- JSON shapes for `expansion.contains`: absent, a list (whose entries are
opaque — only the length is read), or some other value. -/
inductive ContainsField
  | absent
  | list (entries : List Unit)
  | other
deriving DecidableEq

/-- An entry of `expansion.parameter`: `{name, valueUri}` (`""` models an
absent or falsy `valueUri`). -/
structure ExpansionParam where
  name : String
  valueUri : String
deriving DecidableEq

/-- The parts of `expansion` the code reads. An absent `parameter` list is
modelled as `[]` (the source iterates `expansion.get("parameter") or []`). -/
structure Expansion where
  total : JsonScalar
  contains : ContainsField
  parameter : List ExpansionParam
deriving DecidableEq

/-- The parts of the 200-response payload the code reads; `title`/`name`
use `""` for absent-or-falsy. -/
structure ExpandPayload where
  title : String
  name : String
  expansion : Option Expansion
deriving DecidableEq

/-- The `expansion.get("expansion") or {}` default. -/
def emptyExpansion : Expansion := ⟨.other, .absent, []⟩

/-- Lines 269-276: the first `used-codesystem` parameter whose `valueUri` is
truthy and mentions `snomed.info/sct` case-insensitively. -/
def snomed_version_used (expansion : Expansion) : Option String :=
  (expansion.parameter.find? fun param =>
      param.name == "used-codesystem" && param.valueUri != "" &&
        containsSub param.valueUri.toLower "snomed.info/sct").map
    (fun param => param.valueUri)

/-- Lines 263-284: the release-mismatch test. It applies only when a local
definition is supplied and `has_snomed_au_content` holds for it; it fires
when a SNOMED `used-codesystem` parameter was reported whose value does not
contain the requested release id as a substring. -/
def release_mismatch (payload : ExpandPayload) (snomed_version : String)
    (valueset_def : Option ValueSetDef) : Bool :=
  let expansion := payload.expansion.getD emptyExpansion
  let has_snomed :=
    match valueset_def with
    | some vs => has_snomed_au_content vs
    | none => false
  match (if has_snomed then snomed_version_used expansion else none) with
  | some used_version => !(containsSub used_version snomed_version)
  | none => false

/-- The payload-processing tail of `expand_valueset_count` (lines 257-294):
extract the title (`payload.get("title") or payload.get("name")`), return
`(None, None)` on a release mismatch, then accept a nonnegative
`parse_int`-parsed `expansion.total`, fall back to the length of a
list-valued `expansion.contains`, and otherwise report no count. -/
def expand_valueset_count (payload : ExpandPayload) (snomed_version : String)
    (valueset_def : Option ValueSetDef) : Option ℤ × String :=
  let title := pyOr payload.title payload.name
  let expansion := payload.expansion.getD emptyExpansion
  if release_mismatch payload snomed_version valueset_def then (none, "")
  else
    let total_value := parse_int expansion.total (-1)
    if 0 ≤ total_value then (some total_value, title)
    else
      match expansion.contains with
      | .list entries => (some (entries.length : ℤ), title)
      | _ => (none, title)

/-- C9: for a successfully parsed expansion response with no release
mismatch, the count is derived as follows: a `total` that is a JSON integer
(nonnegative) or a digit-only string is accepted as the count; when `total`
is absent or of any other shape (so `parse_int` yields the `-1` default, or
a negative integer), a list-valued `contains` yields its length; and a
`contains` present but not a list yields no count, with the title still
returned. -/
theorem claim_C9_count_derivation (payload : ExpandPayload)
    (snomed_version : String) (valueset_def : Option ValueSetDef)
    (e : Expansion) (hexp : payload.expansion = some e)
    (hnm : release_mismatch payload snomed_version valueset_def = false) :
    (∀ n : ℤ, e.total = .int n → 0 ≤ n →
      expand_valueset_count payload snomed_version valueset_def
        = (some n, pyOr payload.title payload.name)) ∧
    (∀ s : String, e.total = .str s → isDigitString (pyStrip s) = true →
      expand_valueset_count payload snomed_version valueset_def
        = (some (digitsToNat (pyStrip s) : ℤ),
            pyOr payload.title payload.name)) ∧
    (∀ entries : List Unit, parse_int e.total (-1) < 0 →
      e.contains = .list entries →
      expand_valueset_count payload snomed_version valueset_def
        = (some (entries.length : ℤ), pyOr payload.title payload.name)) ∧
    (parse_int e.total (-1) < 0 → e.contains = .other →
      expand_valueset_count payload snomed_version valueset_def
        = (none, pyOr payload.title payload.name)) := by
  unfold expand_valueset_count
  rw [hexp, hnm]
  simp only [Option.getD_some, Bool.false_eq_true, if_false]
  refine ⟨?_, ?_, ?_, ?_⟩
  · intro n htot hn
    rw [htot]
    simp only [parse_int]
    rw [if_pos hn]
  · intro s htot hd
    rw [htot]
    simp only [parse_int, hd, if_pos]
    rw [if_pos (Int.natCast_nonneg (digitsToNat (pyStrip s)))]
  · intro entries hneg hcont
    rw [if_neg (not_le.mpr hneg), hcont]
  · intro hneg hcont
    rw [if_neg (not_le.mpr hneg), hcont]

/-- Witness payload for C9: `title = "T"`, `total = "7"` (a digit string),
`contains` a two-entry list, no local definition (so no mismatch check). -/
def c9_payload : ExpandPayload :=
  ⟨"T", "", some ⟨.str "7", .list [(), ()], []⟩⟩

/-- Witness for C9 at a concrete payload. -/
theorem claim_C9_count_derivation_witness :
    (∀ n : ℤ, (Expansion.mk (.str "7") (.list [(), ()]) []).total = .int n →
      0 ≤ n → expand_valueset_count c9_payload "20250531" none
        = (some n, pyOr c9_payload.title c9_payload.name)) ∧
    (∀ s : String,
      (Expansion.mk (.str "7") (.list [(), ()]) []).total = .str s →
      isDigitString (pyStrip s) = true →
      expand_valueset_count c9_payload "20250531" none
        = (some (digitsToNat (pyStrip s) : ℤ),
            pyOr c9_payload.title c9_payload.name)) ∧
    (∀ entries : List Unit,
      parse_int (Expansion.mk (.str "7") (.list [(), ()]) []).total (-1) < 0 →
      (Expansion.mk (.str "7") (.list [(), ()]) []).contains = .list entries →
      expand_valueset_count c9_payload "20250531" none
        = (some (entries.length : ℤ),
            pyOr c9_payload.title c9_payload.name)) ∧
    (parse_int (Expansion.mk (.str "7") (.list [(), ()]) []).total (-1) < 0 →
      (Expansion.mk (.str "7") (.list [(), ()]) []).contains = .other →
      expand_valueset_count c9_payload "20250531" none
        = (none, pyOr c9_payload.title c9_payload.name)) :=
  claim_C9_count_derivation c9_payload "20250531" none
    ⟨.str "7", .list [(), ()], []⟩ rfl rfl

/-! ### RowBuilder: `build_rows` (src/vs_differ.py lines 297-360)

Phase 1 (lines 304-332): for each binding whose value-set URL passes
`is_ncts_valueset`, build a raw row carrying the URL, a display name (local
`name`/`title`, falling back to the first truthy title the expansion call
returns), the binding's structure-definition fields, and one cell per
release version.  Phase 2 (lines 334-358): group the raw rows by value-set
URL in first-occurrence order — Python dicts preserve insertion order —
collecting one `(structure_definition_name, structure_definition_url)` pair
per contributing raw row whose name or URL is truthy, and emit one final row
per group, keeping the first raw row's name and cells. -/

/-- One entry of the `deduped` bindings list (dict with three keys, each
defaulting to `""`). -/
structure Binding where
  valueset_url : String
  structure_definition_url : String
  structure_definition_name : String
deriving DecidableEq

/-- The injected `expand_func` parameter of `build_rows`:
`(endpoint, valueset_url, version, valueset) ↦ (count, title)`.  `none`
stands for the `{}` the source passes when the value set is not indexed
(`{}` is falsy exactly like an absent definition); `""` is a falsy title. -/
abbrev ExpandFunc := String → String → String → Option ValueSetDef → Option ℤ × String

/-- A phase-1 row (lines 316-332): the version cells hold `some count`, or
`none` for the `""` written when the expansion returned no count. -/
structure RawRow where
  valueset_url : String
  valueset_name : String
  structure_definition_url : String
  structure_definition_name : String
  version_counts : List (String × Option ℤ)
deriving DecidableEq, Inhabited

/-- The body of the `for version in versions` loop (lines 325-331): record
the count cell for this version and adopt the API title when the name is
still empty and the returned title is truthy. -/
def raw_row_step (valueset : Option ValueSetDef) (valueset_url endpoint : String)
    (expand_func : ExpandFunc) (acc : String × List (String × Option ℤ))
    (version : String) : String × List (String × Option ℤ) :=
  let result := expand_func endpoint valueset_url version valueset
  let name' := if acc.1 = "" ∧ result.2 ≠ "" then result.2 else acc.1
  (name', acc.2 ++ [(version, result.1)])

/-- Phase 1 for a single retained binding: seed the name from the local
definition (`name or title or ""`), then loop over the versions, recording
each count and adopting the first truthy API title while the name is
still empty. -/
def build_raw_row (valueset_index : String → Option ValueSetDef)
    (versions : List String) (endpoint : String) (expand_func : ExpandFunc)
    (item : Binding) : RawRow :=
  let valueset := valueset_index item.valueset_url
  let name0 :=
    match valueset with
    | some vs => pyOr vs.name vs.title
    | none => ""
  let final := versions.foldl
    (raw_row_step valueset item.valueset_url endpoint expand_func) (name0, [])
  ⟨item.valueset_url, final.1, item.structure_definition_url,
    item.structure_definition_name, final.2⟩

/-- Lines 304-332: phase 1 over the whole bindings list; non-NCTS bindings
are skipped before any expansion call. -/
def build_raw_rows (deduped : List Binding)
    (valueset_index : String → Option ValueSetDef) (versions : List String)
    (endpoint : String) (expand_func : ExpandFunc) : List RawRow :=
  deduped.filterMap fun item =>
    if is_ncts_valueset item.valueset_url then
      some (build_raw_row valueset_index versions endpoint expand_func item)
    else none

/-- One entry of the insertion-ordered `grouped` dict of lines 334-347. -/
structure GroupEntry where
  url : String
  base : RawRow
  structure_definitions : List (String × String)
deriving DecidableEq

/-- The `(sd_name, sd_url)` pair appended for a raw row when
`sd_name or sd_url` is truthy (lines 343-347). -/
def sd_pair? (row : RawRow) : Option (String × String) :=
  if row.structure_definition_name ≠ "" ∨ row.structure_definition_url ≠ "" then
    some (row.structure_definition_name, row.structure_definition_url)
  else none

/-- One iteration of the grouping loop (lines 336-347): insert the row under
its URL if the URL is new (keeping the first row as the group's base), then
append the row's structure-definition pair to its group when truthy. -/
def group_insert (grouped : List GroupEntry) (row : RawRow) : List GroupEntry :=
  let grouped' :=
    if grouped.any (fun entry => entry.url = row.valueset_url) then grouped
    else grouped ++ [⟨row.valueset_url, row, []⟩]
  match sd_pair? row with
  | some pair =>
      grouped'.map fun entry =>
        if entry.url = row.valueset_url then
          { entry with
              structure_definitions := entry.structure_definitions ++ [pair] }
        else entry
  | none => grouped'

/-- A finalized row (lines 349-358): URL, display name, merged structure
definitions, and the per-release cells of the first contributing raw row. -/
structure Row where
  valueset_url : String
  valueset_name : String
  structure_definitions : List (String × String)
  version_counts : List (String × Option ℤ)
deriving DecidableEq

/-- `build_rows` (lines 297-360): phase 1, the grouping fold, and the final
conversion of each group to a `Row`. -/
def build_rows (deduped : List Binding)
    (valueset_index : String → Option ValueSetDef) (versions : List String)
    (endpoint : String) (expand_func : ExpandFunc) : List Row :=
  let rows := build_raw_rows deduped valueset_index versions endpoint expand_func
  let grouped := rows.foldl group_insert []
  grouped.map fun entry =>
    ⟨entry.url, entry.base.valueset_name, entry.structure_definitions,
      entry.base.version_counts⟩

/-- The distinct elements of `l` in first-occurrence order — the key order
of an insertion-ordered dict built by repeated insertion; `seen` carries the
keys already present. -/
def firstOccAux (seen : List String) : List String → List String
  | [] => []
  | x :: xs =>
      if x ∈ seen then firstOccAux seen xs
      else x :: firstOccAux (x :: seen) xs

/-- First-occurrence deduplication. -/
def firstOcc (l : List String) : List String := firstOccAux [] l

lemma mem_firstOccAux (seen l : List String) (x : String) :
    x ∈ firstOccAux seen l ↔ x ∈ l ∧ x ∉ seen := by
  induction l generalizing seen with
  | nil => simp [firstOccAux]
  | cons y ys ih =>
      unfold firstOccAux
      by_cases hy : y ∈ seen
      · rw [if_pos hy, ih]
        constructor
        · rintro ⟨h1, h2⟩
          exact ⟨List.mem_cons_of_mem _ h1, h2⟩
        · rintro ⟨h1, h2⟩
          rcases List.mem_cons.mp h1 with rfl | h1
          · exact absurd hy h2
          · exact ⟨h1, h2⟩
      · rw [if_neg hy]
        constructor
        · intro hmem
          rcases List.mem_cons.mp hmem with rfl | hmem
          · exact ⟨List.mem_cons_self _ _, hy⟩
          · obtain ⟨h1, h2⟩ := (ih (y :: seen)).mp hmem
            exact ⟨List.mem_cons_of_mem _ h1,
              fun hs => h2 (List.mem_cons_of_mem _ hs)⟩
        · rintro ⟨h1, h2⟩
          by_cases hxy : x = y
          · exact hxy ▸ List.mem_cons_self _ _
          · rcases List.mem_cons.mp h1 with rfl | h1
            · exact absurd rfl hxy
            · refine List.mem_cons_of_mem _ ((ih (y :: seen)).mpr ⟨h1, ?_⟩)
              intro hs
              rcases List.mem_cons.mp hs with rfl | hs
              · exact hxy rfl
              · exact h2 hs

lemma mem_firstOcc (l : List String) (x : String) :
    x ∈ firstOcc l ↔ x ∈ l := by
  unfold firstOcc
  rw [mem_firstOccAux]
  simp

lemma nodup_firstOccAux (seen l : List String) :
    (firstOccAux seen l).Nodup := by
  induction l generalizing seen with
  | nil => simp [firstOccAux]
  | cons y ys ih =>
      unfold firstOccAux
      by_cases hy : y ∈ seen
      · rw [if_pos hy]
        exact ih seen
      · rw [if_neg hy]
        refine List.nodup_cons.mpr ⟨?_, ih (y :: seen)⟩
        intro hmem
        exact ((mem_firstOccAux _ _ _).mp hmem).2 (List.mem_cons_self _ _)

lemma firstOccAux_snoc (seen l : List String) (x : String) :
    firstOccAux seen (l ++ [x]) =
      firstOccAux seen l ++ (if x ∈ seen ∨ x ∈ l then [] else [x]) := by
  induction l generalizing seen with
  | nil =>
      simp only [List.nil_append]
      unfold firstOccAux
      by_cases hx : x ∈ seen
      · rw [if_pos hx, if_pos (Or.inl hx)]
        rfl
      · rw [if_neg hx, if_neg (by simp [hx])]
        rfl
  | cons y ys ih =>
      rw [List.cons_append]
      unfold firstOccAux
      by_cases hy : y ∈ seen
      · rw [if_pos hy, if_pos hy, ih seen]
        have hcond : (x ∈ seen ∨ x ∈ ys) ↔ (x ∈ seen ∨ x ∈ y :: ys) := by
          constructor
          · rintro (h | h)
            · exact Or.inl h
            · exact Or.inr (List.mem_cons_of_mem _ h)
          · rintro (h | h)
            · exact Or.inl h
            · rcases List.mem_cons.mp h with rfl | h
              · exact Or.inl hy
              · exact Or.inr h
        rw [if_congr hcond rfl rfl]
      · rw [if_neg hy, if_neg hy, ih (y :: seen), List.cons_append]
        have hcond : (x ∈ y :: seen ∨ x ∈ ys) ↔ (x ∈ seen ∨ x ∈ y :: ys) := by
          constructor
          · rintro (h | h)
            · rcases List.mem_cons.mp h with rfl | h
              · exact Or.inr (List.mem_cons_self _ _)
              · exact Or.inl h
            · exact Or.inr (List.mem_cons_of_mem _ h)
          · rintro (h | h)
            · exact Or.inl (List.mem_cons_of_mem _ h)
            · rcases List.mem_cons.mp h with rfl | h
              · exact Or.inl (List.mem_cons_self _ _)
              · exact Or.inr h
        rw [if_congr hcond rfl rfl]

lemma firstOcc_snoc (l : List String) (x : String) :
    firstOcc (l ++ [x]) = firstOcc l ++ (if x ∈ l then [] else [x]) := by
  unfold firstOcc
  rw [firstOccAux_snoc]
  have hcond : (x ∈ ([] : List String) ∨ x ∈ l) ↔ x ∈ l := by simp
  rw [if_congr hcond rfl rfl]

/-- The truthy structure-definition pairs contributed by the raw rows with a
given URL, in input order. -/
def sd_pairs_of (rows : List RawRow) (url : String) : List (String × String) :=
  (rows.filter fun r => r.valueset_url = url).filterMap sd_pair?

/-- The first raw row with a given URL (the group's base row). -/
def first_row_for (rows : List RawRow) (url : String) : RawRow :=
  (rows.filter fun r => r.valueset_url = url).headI

/-- Closed form of the grouping fold of lines 334-347. -/
def groups_of (rows : List RawRow) : List GroupEntry :=
  (firstOcc (rows.map RawRow.valueset_url)).map fun url =>
    ⟨url, first_row_for rows url, sd_pairs_of rows url⟩

lemma sd_pairs_of_snoc (rows : List RawRow) (r : RawRow) (url : String) :
    sd_pairs_of (rows ++ [r]) url =
      sd_pairs_of rows url ++
        (if r.valueset_url = url then (sd_pair? r).toList else []) := by
  unfold sd_pairs_of
  rw [List.filter_append, List.filterMap_append]
  congr 1
  by_cases h : r.valueset_url = url
  · simp only [List.filter_cons, h, decide_True, if_true, List.filter_nil]
    cases hp : sd_pair? r <;> simp [List.filterMap_cons, hp]
  · simp [h]

lemma first_row_for_snoc_mem (rows : List RawRow) (r : RawRow) (url : String)
    (h : url ∈ rows.map RawRow.valueset_url) :
    first_row_for (rows ++ [r]) url = first_row_for rows url := by
  unfold first_row_for
  rw [List.filter_append]
  obtain ⟨row, hrow, hurl⟩ := List.mem_map.mp h
  have hne : rows.filter (fun q => decide (q.valueset_url = url)) ≠ [] := by
    intro hnil
    rw [List.filter_eq_nil_iff] at hnil
    exact hnil row hrow (by simp [hurl])
  cases hfil : rows.filter (fun q => decide (q.valueset_url = url)) with
  | nil => exact absurd hfil hne
  | cons a as => simp

lemma first_row_for_snoc_new (rows : List RawRow) (r : RawRow)
    (h : r.valueset_url ∉ rows.map RawRow.valueset_url) :
    first_row_for (rows ++ [r]) r.valueset_url = r := by
  unfold first_row_for
  rw [List.filter_append]
  have hnil : rows.filter (fun q => decide (q.valueset_url = r.valueset_url))
      = [] := by
    rw [List.filter_eq_nil_iff]
    intro a ha hdec
    exact h (List.mem_map.mpr ⟨a, ha, by simpa using hdec⟩)
  rw [hnil]
  simp

lemma sd_pairs_of_nil_new (rows : List RawRow) (r : RawRow)
    (h : r.valueset_url ∉ rows.map RawRow.valueset_url) :
    sd_pairs_of rows r.valueset_url = [] := by
  unfold sd_pairs_of
  have hnil : rows.filter (fun q => decide (q.valueset_url = r.valueset_url))
      = [] := by
    rw [List.filter_eq_nil_iff]
    intro a ha hdec
    exact h (List.mem_map.mpr ⟨a, ha, by simpa using hdec⟩)
  rw [hnil]
  rfl

lemma any_groups_of (pref : List RawRow) (u : String) :
    (groups_of pref).any (fun entry => entry.url = u)
      = decide (u ∈ pref.map RawRow.valueset_url) := by
  rw [Bool.eq_iff_iff, List.any_eq_true, decide_eq_true_iff]
  constructor
  · rintro ⟨e, he, hdec⟩
    obtain ⟨url, hurl, rfl⟩ := List.mem_map.mp he
    have heq : url = u := by simpa using hdec
    subst heq
    exact (mem_firstOcc _ _).mp hurl
  · intro hu
    refine ⟨⟨u, first_row_for pref u, sd_pairs_of pref u⟩, ?_, by simp⟩
    exact List.mem_map.mpr ⟨u, (mem_firstOcc _ _).mpr hu, rfl⟩

lemma group_insert_groups_of (pref : List RawRow) (r : RawRow) :
    group_insert (groups_of pref) r = groups_of (pref ++ [r]) := by
  have hmap : (pref ++ [r]).map RawRow.valueset_url
      = pref.map RawRow.valueset_url ++ [r.valueset_url] := by
    rw [List.map_append]
    rfl
  unfold group_insert
  rw [any_groups_of]
  by_cases hmem : r.valueset_url ∈ pref.map RawRow.valueset_url
  · rw [decide_eq_true hmem, if_pos rfl]
    have hkeys : firstOcc ((pref ++ [r]).map RawRow.valueset_url)
        = firstOcc (pref.map RawRow.valueset_url) := by
      rw [hmap, firstOcc_snoc, if_pos hmem, List.append_nil]
    have hpoint : ∀ url ∈ firstOcc (pref.map RawRow.valueset_url),
        (⟨url, first_row_for (pref ++ [r]) url,
          sd_pairs_of (pref ++ [r]) url⟩ : GroupEntry)
        = ⟨url, first_row_for pref url,
            sd_pairs_of pref url ++
              (if r.valueset_url = url then (sd_pair? r).toList else [])⟩ := by
      intro url hurl
      rw [first_row_for_snoc_mem pref r url ((mem_firstOcc _ _).mp hurl),
        sd_pairs_of_snoc]
    cases hp : sd_pair? r with
    | some pair =>
        simp only []
        unfold groups_of
        rw [hkeys, List.map_map, List.map_congr_left hpoint]
        apply List.map_congr_left
        intro url hurl
        simp only [Function.comp_apply, hp]
        by_cases hu : url = r.valueset_url
        · rw [if_pos hu, if_pos hu.symm]
          rfl
        · rw [if_neg hu, if_neg (fun h => hu h.symm), List.append_nil]
    | none =>
        simp only []
        unfold groups_of
        rw [hkeys, List.map_congr_left hpoint]
        apply List.map_congr_left
        intro url hurl
        rw [hp]
        simp
  · rw [decide_eq_false hmem, if_neg (by simp)]
    have hkeys : firstOcc ((pref ++ [r]).map RawRow.valueset_url)
        = firstOcc (pref.map RawRow.valueset_url) ++ [r.valueset_url] := by
      rw [hmap, firstOcc_snoc, if_neg hmem]
    have hnew : (⟨r.valueset_url, first_row_for (pref ++ [r]) r.valueset_url,
        sd_pairs_of (pref ++ [r]) r.valueset_url⟩ : GroupEntry)
        = ⟨r.valueset_url, r, (sd_pair? r).toList⟩ := by
      rw [first_row_for_snoc_new pref r hmem, sd_pairs_of_snoc,
        sd_pairs_of_nil_new pref r hmem, if_pos rfl, List.nil_append]
    have hpoint : ∀ url ∈ firstOcc (pref.map RawRow.valueset_url),
        (⟨url, first_row_for (pref ++ [r]) url,
          sd_pairs_of (pref ++ [r]) url⟩ : GroupEntry)
        = ⟨url, first_row_for pref url, sd_pairs_of pref url⟩ := by
      intro url hurl
      have hne : r.valueset_url ≠ url := by
        intro h
        exact hmem (h ▸ (mem_firstOcc _ _).mp hurl)
      rw [first_row_for_snoc_mem pref r url ((mem_firstOcc _ _).mp hurl),
        sd_pairs_of_snoc, if_neg hne, List.append_nil]
    cases hp : sd_pair? r with
    | some pair =>
        simp only []
        unfold groups_of
        rw [hkeys, List.map_append, List.map_append,
          List.map_congr_left hpoint]
        congr 1
        · rw [List.map_map]
          apply List.map_congr_left
          intro url hurl
          have hne : url ≠ r.valueset_url := by
            intro h
            exact hmem (h ▸ (mem_firstOcc _ _).mp hurl)
          simp only [Function.comp_apply]
          rw [if_neg hne]
        · simp only [List.map_cons, List.map_nil]
          rw [if_pos trivial, hnew, hp]
          rfl
    | none =>
        simp only []
        unfold groups_of
        rw [hkeys, List.map_append, List.map_congr_left hpoint]
        congr 1
        simp only [List.map_cons, List.map_nil]
        rw [hnew, hp]
        rfl

lemma foldl_group_insert (pref rows : List RawRow) :
    rows.foldl group_insert (groups_of pref) = groups_of (pref ++ rows) := by
  induction rows generalizing pref with
  | nil => simp
  | cons r rest ih =>
      rw [List.foldl_cons, group_insert_groups_of, ih (pref ++ [r]),
        List.append_assoc]
      rfl

/-- `build_rows` in closed form: one output row per distinct raw-row URL in
first-occurrence order, carrying the first raw row's name and cells and the
concatenated truthy structure-definition pairs. -/
theorem build_rows_eq (deduped : List Binding)
    (valueset_index : String → Option ValueSetDef) (versions : List String)
    (endpoint : String) (expand_func : ExpandFunc) :
    build_rows deduped valueset_index versions endpoint expand_func =
      (groups_of
        (build_raw_rows deduped valueset_index versions endpoint
          expand_func)).map
        fun entry =>
          ⟨entry.url, entry.base.valueset_name, entry.structure_definitions,
            entry.base.version_counts⟩ := by
  unfold build_rows
  simp only []
  rw [show ([] : List GroupEntry) = groups_of [] from rfl, foldl_group_insert,
    List.nil_append]

/-- `build_raw_row` keeps the binding's value-set URL. -/
lemma build_raw_row_url (valueset_index : String → Option ValueSetDef)
    (versions : List String) (endpoint : String) (expand_func : ExpandFunc)
    (item : Binding) :
    (build_raw_row valueset_index versions endpoint expand_func
      item).valueset_url = item.valueset_url := rfl

/-- The truthy `(name, url)` pair of a binding, as appended by the grouping
loop. -/
def binding_sd_pair? (b : Binding) : Option (String × String) :=
  if b.structure_definition_name ≠ "" ∨ b.structure_definition_url ≠ "" then
    some (b.structure_definition_name, b.structure_definition_url)
  else none

lemma build_raw_row_sd_pair (valueset_index : String → Option ValueSetDef)
    (versions : List String) (endpoint : String) (expand_func : ExpandFunc)
    (item : Binding) :
    sd_pair? (build_raw_row valueset_index versions endpoint expand_func item)
      = binding_sd_pair? item := rfl

lemma build_raw_rows_map_url (deduped : List Binding)
    (valueset_index : String → Option ValueSetDef) (versions : List String)
    (endpoint : String) (expand_func : ExpandFunc) :
    (build_raw_rows deduped valueset_index versions endpoint expand_func).map
        RawRow.valueset_url
      = ((deduped.filter fun b => is_ncts_valueset b.valueset_url).map
          Binding.valueset_url) := by
  induction deduped with
  | nil => rfl
  | cons b rest ih =>
      unfold build_raw_rows at ih ⊢
      rw [List.filterMap_cons, List.filter_cons]
      by_cases h : is_ncts_valueset b.valueset_url = true
      · rw [if_pos h]
        simp only [h, decide_True, if_true, List.map_cons]
        rw [build_raw_row_url, ih]
      · rw [if_neg h]
        simp only [h, decide_False, Bool.false_eq_true, if_false]
        exact ih

lemma sd_pairs_of_cons (r : RawRow) (rows : List RawRow) (url : String) :
    sd_pairs_of (r :: rows) url =
      (if r.valueset_url = url then (sd_pair? r).toList else []) ++
        sd_pairs_of rows url := by
  unfold sd_pairs_of
  rw [List.filter_cons]
  by_cases h : r.valueset_url = url
  · simp only [h, decide_True, if_true, List.filterMap_cons]
    cases hp : sd_pair? r <;> simp [hp]
  · simp [h]

lemma sd_pairs_of_build_raw_rows (deduped : List Binding)
    (valueset_index : String → Option ValueSetDef) (versions : List String)
    (endpoint : String) (expand_func : ExpandFunc) (url : String)
    (hurl : is_ncts_valueset url = true) :
    sd_pairs_of
        (build_raw_rows deduped valueset_index versions endpoint expand_func)
        url
      = (deduped.filter fun b => b.valueset_url = url).filterMap
          binding_sd_pair? := by
  induction deduped with
  | nil => rfl
  | cons b rest ih =>
      unfold build_raw_rows at ih ⊢
      rw [List.filterMap_cons, List.filter_cons]
      by_cases h : is_ncts_valueset b.valueset_url = true
      · simp only [h, if_true]
        rw [sd_pairs_of_cons, build_raw_row_url, build_raw_row_sd_pair]
        by_cases hu : b.valueset_url = url
        · simp only [hu, decide_True, if_true, List.filterMap_cons]
          rw [ih]
          cases hp : binding_sd_pair? b <;> simp [hp]
        · simp only [hu, decide_False, Bool.false_eq_true, if_false,
            List.nil_append]
          exact ih
      · by_cases hu : b.valueset_url = url
        · exact absurd (hu ▸ hurl) h
        · simp only [h, Bool.false_eq_true, if_false, hu, decide_False]
          exact ih

lemma build_raw_rows_congr (deduped : List Binding)
    (valueset_index : String → Option ValueSetDef) (versions : List String)
    (endpoint : String) (f g : ExpandFunc)
    (hfg : ∀ ep url ver vs, is_ncts_valueset url = true →
      f ep url ver vs = g ep url ver vs) :
    build_raw_rows deduped valueset_index versions endpoint f
      = build_raw_rows deduped valueset_index versions endpoint g := by
  unfold build_raw_rows
  apply List.filterMap_congr
  intro b _
  by_cases h : is_ncts_valueset b.valueset_url = true
  · rw [if_pos h, if_pos h]
    congr 1
    unfold build_raw_row
    simp only []
    rw [show raw_row_step (valueset_index b.valueset_url) b.valueset_url
          endpoint f
        = raw_row_step (valueset_index b.valueset_url) b.valueset_url
            endpoint g by
      funext acc version
      unfold raw_row_step
      rw [hfg endpoint b.valueset_url version (valueset_index b.valueset_url)
        h]]
  · rw [if_neg h, if_neg h]

lemma build_rows_map_url (deduped : List Binding)
    (valueset_index : String → Option ValueSetDef) (versions : List String)
    (endpoint : String) (expand_func : ExpandFunc) :
    (build_rows deduped valueset_index versions endpoint expand_func).map
        Row.valueset_url
      = firstOcc
          ((build_raw_rows deduped valueset_index versions endpoint
            expand_func).map RawRow.valueset_url) := by
  rw [build_rows_eq]
  unfold groups_of
  rw [List.map_map, List.map_map]
  exact List.map_id' _

/-- C7: a binding whose value-set URL does not start with one of the fixed
regional-authority prefixes never contributes a row to `build_rows` — every
output row's URL passes `is_ncts_valueset` — and no expansion call is made
for it: the output is invariant under changing the injected expansion
function anywhere outside the NCTS-prefixed URLs. -/
theorem claim_C7_non_ncts_never_contributes (deduped : List Binding)
    (valueset_index : String → Option ValueSetDef) (versions : List String)
    (endpoint : String) (f g : ExpandFunc) :
    (∀ row ∈ build_rows deduped valueset_index versions endpoint f,
        is_ncts_valueset row.valueset_url = true) ∧
    ((∀ ep url ver vs, is_ncts_valueset url = true →
        f ep url ver vs = g ep url ver vs) →
      build_rows deduped valueset_index versions endpoint f
        = build_rows deduped valueset_index versions endpoint g) := by
  constructor
  · intro row hrow
    rw [build_rows_eq] at hrow
    obtain ⟨entry, hentry, rfl⟩ := List.mem_map.mp hrow
    unfold groups_of at hentry
    obtain ⟨url, hurl, rfl⟩ := List.mem_map.mp hentry
    have hmem := (mem_firstOcc _ _).mp hurl
    rw [build_raw_rows_map_url] at hmem
    obtain ⟨b, hb, hbe⟩ := List.mem_map.mp hmem
    have hn := (List.mem_filter.mp hb).2
    show is_ncts_valueset url = true
    rw [← hbe]
    exact hn
  · intro hfg
    unfold build_rows
    simp only []
    rw [build_raw_rows_congr deduped valueset_index versions endpoint f g hfg]

/-- A binding outside the regional-authority prefixes,
used to witness C7. -/
def c7_binding : Binding :=
  ⟨"http://example.org/vs/other", "http://example.org/sd/Two", "Two"⟩

/-- An expansion stub for C7's witness. -/
def c7_f : ExpandFunc := fun _ _ _ _ => (some 1, "t")

/-- An expansion stub agreeing with `c7_f` on NCTS URLs only. -/
def c7_g : ExpandFunc := fun _ url _ _ =>
  if is_ncts_valueset url then (some 1, "t") else (some 999, "zzz")

/-- Witness for C7 at a concrete non-NCTS binding and two expansion stubs
that differ only at non-NCTS URLs. -/
theorem claim_C7_witness :
    (∀ row ∈ build_rows [c7_binding] (fun _ => none) ["20250531"] "ep" c7_f,
        is_ncts_valueset row.valueset_url = true) ∧
    build_rows [c7_binding] (fun _ => none) ["20250531"] "ep" c7_f
      = build_rows [c7_binding] (fun _ => none) ["20250531"] "ep" c7_g :=
  ⟨(claim_C7_non_ncts_never_contributes [c7_binding] (fun _ => none)
      ["20250531"] "ep" c7_f c7_g).1,
   (claim_C7_non_ncts_never_contributes [c7_binding] (fun _ => none)
      ["20250531"] "ep" c7_f c7_g).2
     (fun ep url ver vs h => by simp [c7_f, c7_g, h])⟩

lemma filterMap_ite_eq_map_filter {α β : Type} (p : α → Prop)
    [DecidablePred p] (f : α → β) (l : List α) :
    (l.filterMap fun a => if p a then some (f a) else none)
      = (l.filter fun a => decide (p a)).map f := by
  induction l with
  | nil => rfl
  | cons a rest ih =>
      rw [List.filterMap_cons, List.filter_cons]
      by_cases h : p a
      · simp [h, ih]
      · simp [h, ih]

lemma sd_pairs_nodup (deduped : List Binding) (url : String)
    (hkeys : (deduped.map fun b =>
        (b.valueset_url, b.structure_definition_url)).Nodup) :
    ((deduped.filter fun b => b.valueset_url = url).filterMap
        binding_sd_pair?).Nodup := by
  have h1 : ((deduped.filter fun b => b.valueset_url = url).map fun b =>
      (b.valueset_url, b.structure_definition_url)).Nodup :=
    hkeys.sublist (List.Sublist.map _ (List.filter_sublist _))
  have h2 : ∀ b ∈ deduped.filter fun b => b.valueset_url = url,
      (b.valueset_url, b.structure_definition_url)
        = ((url, b.structure_definition_url) : String × String) := by
    intro b hb
    have hd := (List.mem_filter.mp hb).2
    have : b.valueset_url = url := by simpa using hd
    rw [this]
  rw [List.map_congr_left h2] at h1
  have h3 : ((deduped.filter fun b => b.valueset_url = url).map fun b =>
      b.structure_definition_url).Nodup := by
    have hmm : (deduped.filter fun b => b.valueset_url = url).map
        (fun b => ((url, b.structure_definition_url) : String × String))
        = ((deduped.filter fun b => b.valueset_url = url).map fun b =>
            b.structure_definition_url).map (fun u => (url, u)) := by
      rw [List.map_map]
      rfl
    rw [hmm] at h1
    exact List.Nodup.of_map _ h1
  have h4 : (deduped.filter fun b => b.valueset_url = url).filterMap
      binding_sd_pair?
      = ((deduped.filter fun b => b.valueset_url = url).filter fun b =>
          decide (b.structure_definition_name ≠ "" ∨
            b.structure_definition_url ≠ "")).map
          (fun b => (b.structure_definition_name,
            b.structure_definition_url)) :=
    filterMap_ite_eq_map_filter _ _ _
  rw [h4]
  apply List.Nodup.of_map Prod.snd
  rw [List.map_map]
  exact h3.sublist (List.Sublist.map _ (List.filter_sublist _))

/-- An NCTS-prefixed binding used for C6's counterexample: feeding the same
binding to `build_rows` twice duplicates its `(name, url)` pair. -/
def c6_binding : Binding :=
  ⟨"http://healthterminologies.gov.au/fhir/ValueSet/x",
    "http://example.org/sd/One", "One"⟩

/-- C6 counterexample: `build_rows` performs no deduplication of
`(name, url)` pairs — on an input list containing the same retained binding
twice, the single output row's `structure_definitions` contains the same
pair twice. -/
theorem claim_C6_counterexample :
    (build_rows [c6_binding, c6_binding] (fun _ => none) [] "ep"
        (fun _ _ _ _ => (none, ""))).map Row.structure_definitions
      = [[("One", "http://example.org/sd/One"),
          ("One", "http://example.org/sd/One")]] ∧
    ¬ ([("One", "http://example.org/sd/One"),
        ("One", "http://example.org/sd/One")] :
          List (String × String)).Nodup :=
  ⟨by decide, by decide⟩

/-- C6 (amended): `build_rows` emits exactly one row per distinct retained
(NCTS-prefixed) value-set URL, and each row's `structure_definitions` is the
order-preserving concatenation of the truthy `(name, url)` pairs of **all**
bindings referencing that value set, one pair per contributing binding with
no deduplication; the pairs are pairwise distinct whenever the input
bindings are pairwise distinct on `(valueSetUrl, structureUrl)` — which the
pipeline's upstream dedup step guarantees. -/
theorem claim_C6_grouping (deduped : List Binding)
    (valueset_index : String → Option ValueSetDef) (versions : List String)
    (endpoint : String) (expand_func : ExpandFunc)
    (hkeys : (deduped.map fun b =>
        (b.valueset_url, b.structure_definition_url)).Nodup) :
    ((build_rows deduped valueset_index versions endpoint expand_func).map
        Row.valueset_url).Nodup ∧
    (∀ url,
      url ∈ (build_rows deduped valueset_index versions endpoint
          expand_func).map Row.valueset_url ↔
        (is_ncts_valueset url = true ∧
          url ∈ deduped.map Binding.valueset_url)) ∧
    (∀ row ∈ build_rows deduped valueset_index versions endpoint expand_func,
      row.structure_definitions =
        (deduped.filter fun b => b.valueset_url = row.valueset_url).filterMap
          binding_sd_pair?) ∧
    (∀ row ∈ build_rows deduped valueset_index versions endpoint expand_func,
      row.structure_definitions.Nodup) := by
  have hsd : ∀ row ∈ build_rows deduped valueset_index versions endpoint
      expand_func,
      row.structure_definitions =
        (deduped.filter fun b => b.valueset_url = row.valueset_url).filterMap
          binding_sd_pair? := by
    intro row hrow
    rw [build_rows_eq] at hrow
    obtain ⟨entry, hentry, rfl⟩ := List.mem_map.mp hrow
    unfold groups_of at hentry
    obtain ⟨url, hurl, rfl⟩ := List.mem_map.mp hentry
    have hmem := (mem_firstOcc _ _).mp hurl
    rw [build_raw_rows_map_url] at hmem
    obtain ⟨b, hb, hbe⟩ := List.mem_map.mp hmem
    have hn : is_ncts_valueset url = true := by
      rw [← hbe]
      exact (List.mem_filter.mp hb).2
    exact sd_pairs_of_build_raw_rows deduped valueset_index versions endpoint
      expand_func url hn
  refine ⟨?_, ?_, hsd, ?_⟩
  · rw [build_rows_map_url]
    exact nodup_firstOccAux [] _
  · intro url
    rw [build_rows_map_url, mem_firstOcc, build_raw_rows_map_url]
    constructor
    · intro h
      obtain ⟨b, hb, rfl⟩ := List.mem_map.mp h
      obtain ⟨hmem, hn⟩ := List.mem_filter.mp hb
      exact ⟨hn, List.mem_map.mpr ⟨b, hmem, rfl⟩⟩
    · rintro ⟨hn, h⟩
      obtain ⟨b, hb, rfl⟩ := List.mem_map.mp h
      exact List.mem_map.mpr ⟨b, List.mem_filter.mpr ⟨hb, hn⟩, rfl⟩
  · intro row hrow
    rw [hsd row hrow]
    exact sd_pairs_nodup deduped row.valueset_url hkeys

/-- Two distinct NCTS bindings on the same value set, used to witness C6. -/
def c6_bindings : List Binding :=
  [⟨"http://healthterminologies.gov.au/fhir/ValueSet/x",
      "http://example.org/sd/One", "One"⟩,
   ⟨"http://healthterminologies.gov.au/fhir/ValueSet/x",
      "http://example.org/sd/Two", "Two"⟩]

/-- Witness for (amended) C6 at a concrete bindings list that is
duplicate-free on `(valueSetUrl, structureUrl)`. -/
theorem claim_C6_grouping_witness :
    ((build_rows c6_bindings (fun _ => none) [] "ep"
        (fun _ _ _ _ => (none, ""))).map Row.valueset_url).Nodup ∧
    (∀ url,
      url ∈ (build_rows c6_bindings (fun _ => none) [] "ep"
          (fun _ _ _ _ => (none, ""))).map Row.valueset_url ↔
        (is_ncts_valueset url = true ∧
          url ∈ c6_bindings.map Binding.valueset_url)) ∧
    (∀ row ∈ build_rows c6_bindings (fun _ => none) [] "ep"
        (fun _ _ _ _ => (none, "")),
      row.structure_definitions =
        (c6_bindings.filter fun b =>
            b.valueset_url = row.valueset_url).filterMap
          binding_sd_pair?) ∧
    (∀ row ∈ build_rows c6_bindings (fun _ => none) [] "ep"
        (fun _ _ _ _ => (none, "")),
      row.structure_definitions.Nodup) :=
  claim_C6_grouping c6_bindings (fun _ => none) [] "ep"
    (fun _ _ _ _ => (none, "")) (by decide)

/-! ### PackageResolver: `gather_packages` (src/vs_differ.py lines 57-107)

`find_package_dir(cache_dir, id, version)` names the expected directory;
`gather_packages` runs a BFS over the dependency graph with a visited set
keyed by `(id, version)`, skipping pairs whose directory is missing (their
dependencies are never read).  The cache directory is fixed for a run, so
the embedding keys the two file-system questions — does the pair's
directory exist, and what does its manifest's ordered `dependencies` dict
hold — directly by the `(id, version)` pair whose directory
`find_package_dir` names.  Python terminates because only finitely many
package directories exist on disk; the embedding carries that finiteness as
a finite set `F` containing every pair whose directory exists, which also
bounds the termination measure. -/

/-- `find_package_dir` (lines 57-59). -/
def find_package_dir (cache_dir package_id version : String) : String :=
  cache_dir ++ "/" ++ package_id ++ "#" ++ version ++ "/package"

/-- The file-system facts `gather_packages` consults. -/
structure PackageCache where
  hasDir : String × String → Bool
  deps : String × String → List (String × String)

/-- Termination weight of a pair: visiting it removes the pair from the
unvisited set while enqueueing at most its dependency list. -/
def pkgWeight (cache : PackageCache) (p : String × String) : ℕ :=
  1 + (cache.deps p).length

/-- The `while queue` loop of `gather_packages` (lines 92-106): pop the
front, skip already-visited pairs, mark the pair visited, skip it when its
directory is missing, otherwise append it to the result and enqueue its
not-yet-visited dependencies. -/
def gather_packages_loop (cache : PackageCache) (cache_dir : String)
    (F : Finset (String × String))
    (hF : ∀ p : String × String, cache.hasDir p = true → p ∈ F)
    (visited : Finset (String × String)) (queue : List (String × String))
    (packages : List (String × String × String)) :
    List (String × String × String) :=
  match queue with
  | [] => packages
  | p :: rest =>
      if hv : p ∈ visited then
        gather_packages_loop cache cache_dir F hF visited rest packages
      else
        if hd : cache.hasDir p = true then
          gather_packages_loop cache cache_dir F hF (insert p visited)
            (rest ++ (cache.deps p).filter (fun q => q ∉ insert p visited))
            (packages ++ [(p.1, p.2, find_package_dir cache_dir p.1 p.2)])
        else
          gather_packages_loop cache cache_dir F hF (insert p visited) rest
            packages
termination_by (F \ visited).sum (pkgWeight cache) + queue.length
decreasing_by
  · simp only [List.length_cons]
    omega
  · have hpF : p ∈ F := hF p hd
    have hp : p ∈ F \ visited := Finset.mem_sdiff.mpr ⟨hpF, hv⟩
    have hform : F \ insert p visited = (F \ visited).erase p := by
      ext q
      simp only [Finset.mem_sdiff, Finset.mem_erase, Finset.mem_insert]
      constructor
      · rintro ⟨hqF, hq⟩
        push_neg at hq
        exact ⟨hq.1, hqF, hq.2⟩
      · rintro ⟨hne, hqF, hq⟩
        exact ⟨hqF, by
          push_neg
          exact ⟨hne, hq⟩⟩
    have hsum : pkgWeight cache p
        + ((F \ visited).erase p).sum (pkgWeight cache)
        = (F \ visited).sum (pkgWeight cache) :=
      Finset.add_sum_erase (F \ visited) (pkgWeight cache) hp
    have hlen : ((cache.deps p).filter
        (fun q => q ∉ insert p visited)).length ≤ (cache.deps p).length :=
      List.length_filter_le _ _
    have hw : pkgWeight cache p = 1 + (cache.deps p).length := rfl
    rw [hform]
    simp only [List.length_append, List.length_cons]
    omega
  · have hsub : F \ insert p visited ⊆ F \ visited :=
      Finset.sdiff_subset_sdiff (le_refl F) (Finset.subset_insert p visited)
    have hle : (F \ insert p visited).sum (pkgWeight cache)
        ≤ (F \ visited).sum (pkgWeight cache) :=
      Finset.sum_le_sum_of_subset hsub
    simp only [List.length_cons]
    omega

/-- `gather_packages` (lines 87-107): BFS from the root pair with an empty
visited set and result list. -/
def gather_packages (cache : PackageCache) (cache_dir : String)
    (root_id root_version : String) (F : Finset (String × String))
    (hF : ∀ p : String × String, cache.hasDir p = true → p ∈ F) :
    List (String × String × String) :=
  gather_packages_loop cache cache_dir F hF ∅ [(root_id, root_version)] []

lemma gather_packages_loop_nodup (cache : PackageCache) (cache_dir : String)
    (F : Finset (String × String))
    (hF : ∀ p : String × String, cache.hasDir p = true → p ∈ F)
    (visited : Finset (String × String)) (queue : List (String × String))
    (packages : List (String × String × String))
    (hnd : (packages.map fun t => ((t.1, t.2.1) : String × String)).Nodup)
    (hvis : ∀ t ∈ packages, ((t.1, t.2.1) : String × String) ∈ visited) :
    ((gather_packages_loop cache cache_dir F hF visited queue packages).map
      fun t => ((t.1, t.2.1) : String × String)).Nodup := by
  induction visited, queue, packages using gather_packages_loop.induct cache cache_dir F hF with
  | case1 visited packages =>
      rw [gather_packages_loop]
      exact hnd
  | case2 visited p rest packages hv ih =>
      rw [gather_packages_loop]
      simp only [dif_pos hv]
      exact ih hnd hvis
  | case3 visited p rest packages hv hd ih =>
      rw [gather_packages_loop]
      simp only [dif_neg hv, dif_pos hd]
      apply ih
      · rw [List.map_append]
        rw [List.nodup_append]
        refine ⟨hnd, by simp, ?_⟩
        intro a ha hb
        simp only [List.map_cons, List.map_nil, List.mem_singleton] at hb
        obtain ⟨t, ht, hteq⟩ := List.mem_map.mp ha
        have hpv := hvis t ht
        rw [hteq, hb] at hpv
        exact hv (by simpa using hpv)
      · intro t ht
        rcases List.mem_append.mp ht with h | h
        · exact Finset.mem_insert_of_mem (hvis t h)
        · simp only [List.mem_singleton] at h
          subst h
          exact Finset.mem_insert_self _ _
  | case4 visited p rest packages hv hd ih =>
      rw [gather_packages_loop]
      simp only [dif_neg hv, dif_neg hd]
      apply ih hnd
      intro t ht
      exact Finset.mem_insert_of_mem (hvis t ht)

/-- C8: for every dependency graph over a finite set of existing package
directories — including cyclic ones — `gather_packages` terminates (it is
defined by well-founded recursion on the measure
`(F \ visited).sum pkgWeight + queue.length`, which every loop iteration
strictly decreases) and each `(id, version)` pair appears at most once in
the returned sequence: the visited set admits each pair once. -/
theorem claim_C8_gather_packages_visits_once (cache : PackageCache)
    (cache_dir root_id root_version : String) (F : Finset (String × String))
    (hF : ∀ p : String × String, cache.hasDir p = true → p ∈ F) :
    ((gather_packages cache cache_dir root_id root_version F hF).map
      fun t => ((t.1, t.2.1) : String × String)).Nodup := by
  unfold gather_packages
  exact gather_packages_loop_nodup cache cache_dir F hF ∅
    [(root_id, root_version)] [] (by simp) (by simp)

/-- A two-package cache whose dependency graph is the cycle A→B→A, used to
witness C8. -/
def c8_cache : PackageCache :=
  ⟨fun p => p == ("A", "1.0") || p == ("B", "1.0"),
   fun p =>
     if p = ("A", "1.0") then [("B", "1.0")]
     else if p = ("B", "1.0") then [("A", "1.0")] else []⟩

/-- The finite support of `c8_cache`. -/
def c8_F : Finset (String × String) := {("A", "1.0"), ("B", "1.0")}

/-- Witness for C8 on the cyclic dependency graph A→B→A. -/
theorem claim_C8_gather_packages_visits_once_witness :
    ((gather_packages c8_cache "cache" "A" "1.0" c8_F
        (by
          intro p h
          simp only [c8_cache, Bool.or_eq_true, beq_iff_eq] at h
          rcases h with h | h <;> simp [c8_F, h])).map
      fun t => ((t.1, t.2.1) : String × String)).Nodup :=
  claim_C8_gather_packages_visits_once c8_cache "cache" "A" "1.0" c8_F
    (by
      intro p h
      simp only [c8_cache, Bool.or_eq_true, beq_iff_eq] at h
      rcases h with h | h <;> simp [c8_F, h])
